import Mathlib

/-!
# Verification of the `reals` constructive-real evaluator

A shallow embedding of `pkg/constructive` from the `ripta/reals` Go module.

Modelling conventions:

* `*big.Int` values are unbounded `Int`; a possibly-nil `*big.Int` is an
  `Option Int` (`none` = Go `nil`), and dereferencing `none` is a panic.
* Go's machine `int` is an `Int` wrapped with `goWrap` (two's-complement
  reduction modulo `2^64`) wherever the source can overflow; `math.MinInt`
  is `goMinInt`.
* `big.Int.Div` is Euclidean division, which is `Int.ediv`; `big.Int.Rsh`
  and Go's arithmetic `>>` on `int` are floor division by a power of two,
  which is `Int.ediv` by a positive power of two; `big.Int.Lsh` is
  multiplication by a power of two.
* Every node of the expression DAG carries a mutable precision tracker.
  The mutable heap is modelled by threading the (tracker-annotated) tree
  through every evaluation step: each evaluator returns its result
  together with the updated tree.  Aliasing between distinct references
  to one Go object is not representable in a tree; the claims proved here
  evaluate expressions without shared mutable children.
* Non-termination is modelled with fuel: every recursive entry consumes
  one unit, and exhaustion yields the artificial result `GoRes.noFuel`
  (distinct from Go `nil` and from a panic).
* A Go panic is `GoRes.panicRes msg` and propagates like the real one;
  `recover` (used by `Text`) turns it back into a value.
-/

namespace Constructive

/-- Outcome of a Go computation producing an `α` (usually a `*big.Int`):
a proper value, a returned nil pointer, a propagating panic (with the Go
runtime message), or fuel exhaustion (model artifact for non-termination). -/
inductive GoRes (α : Type) where
  | ok : α → GoRes α
  | nilRes : GoRes α
  | panicRes : String → GoRes α
  | noFuel : GoRes α
deriving DecidableEq, Repr

/-- Go runtime message for dereferencing a nil pointer. -/
def nilDeref : String := "runtime error: invalid memory address or nil pointer dereference"

/-- Go `math/big` panic message for division by zero. -/
def divByZero : String := "division by zero"

/-- Go `math/big` panic message for an out-of-range radix in `Int.Text`. -/
def invalidBase : String := "invalid base"

/-- `const IntSize = 32 << (^uint(0) >> 63)`: 64 on the modelled platform. -/
def IntSize : Nat := 64

/-- Two's-complement wraparound of Go `int` arithmetic (64-bit). -/
def goWrap (x : Int) : Int := Int.bmod x (2 ^ 64)

/-- `math.MinInt` on a 64-bit platform. -/
def goMinInt : Int := -(2 ^ 63)

/-- Go's arithmetic right shift `v >> k` on `int` (floor division by `2^k`;
`Int.ediv` by a positive divisor is floor division). -/
def goShr (v : Int) (k : Nat) : Int := v / 2 ^ k

/-- Go's 64-bit `int` xor `a ^ b` (two's complement). -/
def goXor (a b : Int) : Int :=
  goWrap ((((a % 2 ^ 64).toNat ^^^ (b % 2 ^ 64).toNat : Nat)) : Int)

/-- `bigAdd` adds two big integers. -/
def bigAdd (a b : Int) : Int := a + b

/-- `bigSub` subtracts two big integers. -/
def bigSub (a b : Int) : Int := a - b

/-- `bigLsh` left shifts a big integer by n bits. -/
def bigLsh (a : Int) (n : Nat) : Int := a * 2 ^ n

/-- `bigRsh` right shifts a big integer by n bits (`big.Int.Rsh`, i.e. floor
division by `2^n`). -/
def bigRsh (a : Int) (n : Nat) : Int := a / 2 ^ n

/-- `bigAbs` returns the absolute value of a big integer. -/
def bigAbs (a : Int) : Int := if a < 0 then -a else a

/-- `bigNeg` returns the negation of a big integer. -/
def bigNeg (a : Int) : Int := -a

/-- `bigMul` multiplies two big integers. -/
def bigMul (a b : Int) : Int := a * b

/-- `bigDiv` divides two big integers; `big.Int.Div` is Euclidean division. -/
def bigDiv (a b : Int) : Int := a / b

/-- `bigExp(a, b, nil)`: `big.Int.Exp` with nil modulus returns `a^b`,
and returns 1 when the exponent is negative. -/
def bigExp (a b : Int) : Int := if b < 0 then 1 else a ^ b.toNat

/-- `big.Int.BitLen`, computed by a fuel-driven binary recursion so that it
reduces inside the kernel (`BitLen 0 = 0`, `BitLen v = ⌊log2 v⌋ + 1`). -/
def bitLenGo : Nat → Nat → Nat
  | 0, _ => 0
  | f + 1, n => if n = 0 then 0 else bitLenGo f (n / 2) + 1

/-- Bit length of a natural number (`big.Int.BitLen` of its absolute value). -/
def bitLen (n : Nat) : Nat := bitLenGo n n

/-- `boundLog2` calculates the base-2 logarithm of `|n| + 1`, rounded up.
The Go source computes it with exact `float64` operations
(`math.Ceil(math.Log2(|n| + 1))`); it equals the least `k` with
`|n| + 1 ≤ 2^k`, computed here by fueled search. -/
def clogGo : Nat → Nat → Nat → Nat
  | 0, _, _ => 0
  | f + 1, acc, m => if m ≤ 2 ^ acc then acc else clogGo f (acc + 1) m

/-- `boundLog2(n) = ⌈log2(|n| + 1)⌉`. -/
def boundLog2 (n : Int) : Int := Int.ofNat (clogGo (n.natAbs + 1) 0 (n.natAbs + 1))

/-- `IsIntWithinBitTolerance` checks if the integer value is within the bit
tolerance (the Go body ignores `tolerance` and hardcodes shifts by
`IntSize - 4` and `IntSize - 3`; `(x ^ y) == 0` is the Go comparison). -/
def IsIntWithinBitTolerance (value tolerance : Int) : Bool :=
  let highBits := goShr value (IntSize - 4)
  let topBits := goShr value (IntSize - 3)
  goXor highBits topBits == 0

/-- `IsPrecisionValid` checks if the precision is within 4 bits of tolerance. -/
def IsPrecisionValid (p : Int) : Bool := IsIntWithinBitTolerance p 4

/-- `scale` is a rounded multiplication by `2^n`. -/
def signedShift (i : Int) (n : Int) : Int :=
  if n < 0 then bigRsh i (-n).toNat
  else if n > 0 then bigLsh i n.toNat
  else i

/-- `scale(i, n)`: left shift for `n ≥ 0`, otherwise
`((i >> (-n-1)) + 1) >> 1`. -/
def scale (i : Int) (n : Int) : Int :=
  if n ≥ 0 then bigLsh i n.toNat
  else bigRsh (bigAdd (signedShift i (n + 1)) 1) 1

/-- The `precisionTracker` struct: `IsValid`, `MaxApproximation`
(a possibly-nil `*big.Int`), `MinPrecision`. -/
structure PT where
  IsValid : Bool
  MaxApproximation : Option Int
  MinPrecision : Int
deriving DecidableEq, Repr

/-- The Go zero value of `precisionTracker` (fresh node). -/
def pt0 : PT := ⟨false, none, 0⟩

/-- `precisionTracker.Get(p)`: on a hit returns
`scale(MaxApproximation, MinPrecision - p)` and `true`; rescaling a nil
stored approximation is a nil dereference.  A miss returns `(nil, false)`. -/
def PT.Get (t : PT) (p : Int) : GoRes Int × Bool :=
  if t.IsValid ∧ p ≥ t.MinPrecision then
    match t.MaxApproximation with
    | some v => (.ok (scale v (t.MinPrecision - p)), true)
    | none => (.panicRes nilDeref, true)
  else (.nilRes, false)

/-- `precisionTracker.Set(p, i)`: overwrite the single cached entry and
return the stored value. -/
def PT.Set (t : PT) (p : Int) (i : Option Int) : PT × Option Int :=
  (⟨true, i, p⟩, i)

/-- The expression DAG of `Real` nodes.  Constructors carry the embedded
`precisionTracker` of the corresponding Go struct.  `nilr` is the nil
`Real` interface value.  `named` embeds its inner `Real` (it has no own
tracker; method calls are promoted to the inner node).  The series kernels
for exp/cos/arctan are not needed by any claim and are omitted from the
model; `lnK` is `prescaledNaturalLog` and `sqrtK` is `prescaledSqrt`. -/
inductive CReal where
  | nilr : CReal
  | int (t : PT) (i : Int) : CReal
  | add (t : PT) (a b : CReal) : CReal
  | neg (t : PT) (r : CReal) : CReal
  | shift (t : PT) (r : CReal) (n : Int) : CReal
  | mul (t : PT) (a b : CReal) : CReal
  | inv (t : PT) (r : CReal) : CReal
  | condsign (t : PT) (a b r : CReal) : CReal
  | lnK (t : PT) (r : CReal) : CReal
  | sqrtK (t : PT) (r : CReal) : CReal
  | named (name : String) (r : CReal) : CReal
deriving DecidableEq, Repr

/-- `c.tracker()`: the embedded tracker; `named` delegates to its inner
node, and calling it on the nil interface is a panic (`none`). -/
def trackerOf : CReal → Option PT
  | .nilr => none
  | .int t _ => some t
  | .add t _ _ => some t
  | .neg t _ => some t
  | .shift t _ _ => some t
  | .mul t _ _ => some t
  | .inv t _ => some t
  | .condsign t _ _ _ => some t
  | .lnK t _ => some t
  | .sqrtK t _ => some t
  | .named _ r => trackerOf r

/-- Overwrite the tracker reached by `trackerOf` (models mutating the
tracker through the pointer obtained from `c.tracker()`). -/
def setTracker : CReal → PT → CReal
  | .nilr, _ => .nilr
  | .int _ i, t => .int t i
  | .add _ a b, t => .add t a b
  | .neg _ r, t => .neg t r
  | .shift _ r n, t => .shift t r n
  | .mul _ a b, t => .mul t a b
  | .inv _ r, t => .inv t r
  | .condsign _ a b r, t => .condsign t a b r
  | .lnK _ r, t => .lnK t r
  | .sqrtK _ r, t => .sqrtK t r
  | .named s r, t => .named s (setTracker r t)

/-- The exact rational value denoted by an expression, when it is defined
and rational: `none` for the nil Real, for an inverse of zero, for an
undecided `condsign` tie, and for the transcendental kernels. -/
def val : CReal → Option ℚ
  | .nilr => none
  | .int _ i => some (i : ℚ)
  | .add _ a b => do pure ((← val a) + (← val b))
  | .neg _ r => do pure (-(← val r))
  | .shift _ r n => do
      let v ← val r
      pure (v * (if 0 ≤ n then ((2 ^ n.toNat : ℤ) : ℚ) else (1 / ((2 ^ (-n).toNat : ℤ) : ℚ))))
  | .mul _ a b => do pure ((← val a) * (← val b))
  | .inv _ r => do
      let v ← val r
      if v = 0 then none else pure (1 / v)
  | .condsign _ a b r => do
      let vr ← val r
      if vr < 0 then val a else if 0 < vr then val b else none
  | .lnK _ _ => none
  | .sqrtK _ _ => none
  | .named _ r => val r

/-- `knownMSD` computed from a tracker: `MinPrecision + BitLen - 1`
(reading a nil stored approximation panics). -/
def knownMSDt (t : PT) : GoRes Int :=
  match t.MaxApproximation with
  | none => .panicRes nilDeref
  | some v =>
      if 0 ≤ v then .ok (goWrap (t.MinPrecision + Int.ofNat (bitLen v.toNat) - 1))
      else .ok (goWrap (t.MinPrecision + Int.ofNat (bitLen (-v).toNat) - 1))

end Constructive

namespace Constructive

/-- The term loop of `prescaledNaturalLog.approximate` (pure big-integer
arithmetic; fueled because the Go loop runs until the term underflows). -/
def lnLoop : Nat → Int → Int → Int → Int → Int → Int → Int → Int → GoRes Int
  | 0, _, _, _, _, _, _, _, _ => .noFuel
  | f + 1, opAppr, opPrec, maxTruncError, xToTheN, term, sum, n, sgn =>
      if bigAbs term ≥ maxTruncError then
        let n2 := n + 1
        let sgn2 := -sgn
        let x2 := scale (bigMul xToTheN opAppr) opPrec
        let term2 := bigDiv x2 (sgn2 * n2)
        lnLoop f opAppr opPrec maxTruncError x2 term2 (bigAdd sum term2) n2 sgn2
      else .ok sum

mutual

/-- `Approximate(c, p)`: gatekeeper — validate the precision (before ever
touching the node), consult the tracker, else delegate to the variant body
and cache the result (caching even a nil result). -/
def Approximate (fuel : Nat) (c : CReal) (p : Int) : GoRes Int × CReal :=
  if ¬ IsPrecisionValid p then (.nilRes, c)
  else
    match trackerOf c with
    | none => (.panicRes nilDeref, c)
    | some t =>
      match t.Get p with
      | (r, true) => (r, c)
      | (_, false) =>
        match fuel with
        | 0 => (.noFuel, c)
        | f + 1 =>
          match approximate f c p with
          | (.ok v, c2) => (.ok v, setTracker c2 ⟨true, some v, p⟩)
          | (.nilRes, c2) => (.nilRes, setTracker c2 ⟨true, none, p⟩)
          | (e, c2) => (e, c2)

/-- The per-variant `approximate(p)` method bodies. -/
def approximate (fuel : Nat) (c : CReal) (p : Int) : GoRes Int × CReal :=
  match fuel with
  | 0 => (.noFuel, c)
  | f + 1 =>
    match c with
    | .nilr => (.panicRes nilDeref, c)
    | .named s r =>
        -- promoted method of the embedded Real: dispatch on the inner node
        let (res, r2) := approximate f r p
        (res, .named s r2)
    | .int t i => (.ok (scale i (-p)), .int t i)
    | .add t a b =>
        -- sum := bigAdd(Approximate(c.a, p-2), Approximate(c.b, p-2))
        match Approximate f a (p - 2) with
        | (.ok ia, a2) =>
            match Approximate f b (p - 2) with
            | (.ok ib, b2) => (.ok (scale (bigAdd ia ib) (-2)), .add t a2 b2)
            | (.nilRes, b2) => (.panicRes nilDeref, .add t a2 b2)
            | (e, b2) => (e, .add t a2 b2)
        | (.nilRes, a2) =>
            -- the second argument is still evaluated before bigAdd panics
            match Approximate f b (p - 2) with
            | (.panicRes m, b2) => (.panicRes m, .add t a2 b2)
            | (.noFuel, b2) => (.noFuel, .add t a2 b2)
            | (_, b2) => (.panicRes nilDeref, .add t a2 b2)
        | (e, a2) => (e, .add t a2 b)
    | .neg t r =>
        match Approximate f r p with
        | (.ok v, r2) => (.ok (bigNeg v), .neg t r2)
        | (.nilRes, r2) => (.panicRes nilDeref, .neg t r2)
        | (e, r2) => (e, .neg t r2)
    | .shift t r n =>
        let (res, r2) := Approximate f r (goWrap (p - n))
        (res, .shift t r2 n)
    | .mul t a b =>
        let hp := goShr p 1 - 1
        match msd f a hp with
        | (.ok ma, a1) =>
            if ma = goMinInt then
              match msd f b hp with
              | (.ok mb, b1) =>
                  if mb = goMinInt then (.ok 0, .mul t a1 b1)
                  else mulRest f t a1 b1 p mb   -- ma, mb = mb, ma
              | (e, b1) => (e, .mul t a1 b1)
            else mulRest f t a1 b p ma
        | (e, a1) => (e, .mul t a1 b)
    | .inv t r =>
        match msd f r p with
        | (.ok mr, r1) =>
            let ir := goWrap (1 - mr)
            let digits := goWrap (ir - p + 3)
            let pn := goWrap (mr - digits)
            let lsf := goWrap (-p - pn)
            if lsf < 0 then (.ok 0, .inv t r1)
            else
              let dividend := bigLsh 1 lsf.toNat
              match Approximate f r1 pn with
              | (.ok divisor, r2) =>
                  if divisor = 0 then (.panicRes divByZero, .inv t r2)
                  else
                    let absolute := bigAbs divisor
                    let adj := bigAdd dividend (bigRsh absolute 1)
                    let res := bigDiv adj divisor
                    if res < 0 then (.ok (bigNeg res), .inv t r2)
                    else (.ok res, .inv t r2)
              | (.nilRes, r2) => (.panicRes nilDeref, .inv t r2)
              | (e, r2) => (e, .inv t r2)
        | (e, r1) => (e, .inv t r1)
    | .condsign t a b r =>
        match Approximate f r (-20) with
        | (.ok s, r1) =>
            if s < 0 then
              let (res, a1) := Approximate f a p
              (res, .condsign t a1 b r1)
            else if 0 < s then
              let (res, b1) := Approximate f b p
              (res, .condsign t a b1 r1)
            else
              match Approximate f a (p - 1) with
              | (.ok ia, a1) =>
                  match Approximate f b (p - 1) with
                  | (.ok ib, b1) =>
                      let delta := bigAbs (bigSub ia ib)
                      if delta ≤ 1 then (.ok (scale ia (-1)), .condsign t a1 b1 r1)
                      else
                        match SignLoop f r1 (-20) with
                        | (.ok sg, r2) =>
                            if sg < 0 then (.ok (scale ia (-1)), .condsign t a1 b1 r2)
                            else (.ok (scale ib (-1)), .condsign t a1 b1 r2)
                        | (e, r2) => (e, .condsign t a1 b1 r2)
                  | (.nilRes, b1) => (.panicRes nilDeref, .condsign t a1 b1 r1)
                  | (e, b1) => (e, .condsign t a1 b1 r1)
              | (.nilRes, a1) =>
                  match Approximate f b (p - 1) with
                  | (.panicRes m, b1) => (.panicRes m, .condsign t a1 b1 r1)
                  | (.noFuel, b1) => (.noFuel, .condsign t a1 b1 r1)
                  | (_, b1) => (.panicRes nilDeref, .condsign t a1 b1 r1)
              | (e, a1) => (e, .condsign t a1 b r1)
        | (.nilRes, r1) => (.panicRes nilDeref, .condsign t a b r1)
        | (e, r1) => (e, .condsign t a b r1)
    | .lnK t r =>
        if p ≥ 0 then (.ok 0, .lnK t r)
        else
          let iters := -p - 1
          let calcPrec := p - boundLog2 (2 * iters) - 4
          let opPrec := p - 3
          match Approximate f r opPrec with
          | (.ok opAppr, r1) =>
              let xToTheN := scale opAppr (opPrec - calcPrec)
              let maxTruncError := bigLsh 1 (p - 4 - calcPrec).toNat
              match lnLoop f opAppr opPrec maxTruncError xToTheN xToTheN xToTheN 1 1 with
              | .ok sum => (.ok (scale sum (calcPrec - p)), .lnK t r1)
              | e => (e, .lnK t r1)
          | (.nilRes, r1) => (.panicRes nilDeref, .lnK t r1)
          | (e, r1) => (e, .lnK t r1)
    | .sqrtK t r =>
        let pn := goWrap (2 * p - 1)
        match msd f r pn with
        | (.ok mr, r1) =>
            if mr ≤ pn then (.ok 0, .sqrtK t r1)
            else
              let digits := goWrap (Int.tdiv mr 2 - p)
              if digits > 40 then
                let pa := goWrap (Int.tdiv mr 2 - (Int.tdiv digits 2 + 6))
                match Approximate f (.sqrtK t r1) pa with
                | (.ok ic, self1) =>
                    match self1 with
                    | .sqrtK t2 r2 =>
                        match Approximate f r2 (goWrap (2 * pa)) with
                        | (.ok irv, r3) =>
                            let numerator := scale (bigAdd (bigMul ic ic) irv) (pa - p)
                            if ic = 0 then (.panicRes divByZero, .sqrtK t2 r3)
                            else (.ok (bigRsh (bigAdd (bigDiv numerator ic) 1) 1), .sqrtK t2 r3)
                        | (.nilRes, r3) => (.panicRes nilDeref, .sqrtK t2 r3)
                        | (e, r3) => (e, .sqrtK t2 r3)
                    | other => (.panicRes nilDeref, other)
                | (.nilRes, self1) => (.panicRes nilDeref, self1)
                | (e, self1) => (e, self1)
              else
                let pa := 2 * Int.fdiv (goWrap (mr - 60)) 2   -- (mr - 60) &^ 1
                match Approximate f r1 pa with
                | (.ok irv, r2) =>
                    let ir := bigLsh irv 60
                    if ir < 0 then (.nilRes, .sqrtK t r2)
                    else
                      -- float64 conversion plus math.Sqrt, modelled by the
                      -- integer square root (never evaluated by a claim)
                      (.ok (signedShift (Int.ofNat (Nat.sqrt ir.toNat))
                             (Int.tdiv (pa - 60) 2 - p)), .sqrtK t r2)
                | (.nilRes, r2) => (.panicRes nilDeref, .sqrtK t r2)
                | (e, r2) => (e, .sqrtK t r2)
        | (e, r1) => (e, .sqrtK t r1)

/-- Steps 2-5 of `constructiveMultiplication.approximate` (after the msd
bookkeeping): evaluate `b` at `p2`, read `knownMSD(b)`, evaluate `a` at
`p1`, and rescale the product. -/
def mulRest (fuel : Nat) (t : PT) (a b : CReal) (p ma : Int) : GoRes Int × CReal :=
  match fuel with
  | 0 => (.noFuel, .mul t a b)
  | f + 1 =>
    let p2 := goWrap (p - ma - 3)
    match Approximate f b p2 with
    | (.ok ib, b2) =>
        if ib = 0 then (.ok 0, .mul t a b2)
        else
          match (match trackerOf b2 with
                 | none => GoRes.panicRes nilDeref
                 | some tb => knownMSDt tb) with
          | .ok mb =>
              let p1 := goWrap (p - mb - 3)
              match Approximate f a p1 with
              | (.ok ia, a2) =>
                  (.ok (scale (bigMul ia ib) (goWrap (p1 + p2 - p))), .mul t a2 b2)
              | (.nilRes, a2) => (.panicRes nilDeref, .mul t a2 b2)
              | (e, a2) => (e, .mul t a2 b2)
          | .panicRes m => (.panicRes m, .mul t a b2)
          | _ => (.panicRes nilDeref, .mul t a b2)
    | (.nilRes, b2) => (.panicRes nilDeref, .mul t a b2)
    | (e, b2) => (e, .mul t a b2)

/-- `msd(c, n)`: probe at `n - 1` when the tracker is invalid or holds a
tiny approximation, then read `knownMSD`; `math.MinInt` signals "may be
zero". -/
def msd (fuel : Nat) (c : CReal) (n : Int) : GoRes Int × CReal :=
  match fuel with
  | 0 => (.noFuel, c)
  | f + 1 =>
    match trackerOf c with
    | none => (.panicRes nilDeref, c)
    | some t =>
      match (if t.IsValid then
               match t.MaxApproximation with
               | none => GoRes.panicRes nilDeref
               | some v => GoRes.ok (decide (v ≤ 1 ∧ -1 ≤ v))
             else GoRes.ok true) with
      | .panicRes m => (.panicRes m, c)
      | .ok true =>
          -- `_ = Approximate(c, n-1)` for side effects
          match Approximate f c (goWrap (n - 1)) with
          | (.panicRes m, c1) => (.panicRes m, c1)
          | (.noFuel, c1) => (.noFuel, c1)
          | (_, c1) =>
            match trackerOf c1 with
            | none => (.panicRes nilDeref, c1)
            | some t1 =>
              match t1.MaxApproximation with
              | none => (.panicRes nilDeref, c1)
              | some v1 =>
                  if bigAbs v1 ≤ 1 then (.ok goMinInt, c1)
                  else (knownMSDt t1, c1)
      | .ok false => (knownMSDt t, c)
      | _ => (.panicRes nilDeref, c)

/-- `PreciseSign(c, p)`: use a valid tracker with a nonzero cached sign,
else the sign of `Approximate(c, p-1)` (0 when that is nil). -/
def PreciseSign (fuel : Nat) (c : CReal) (p : Int) : GoRes Int × CReal :=
  match fuel with
  | 0 => (.noFuel, c)
  | f + 1 =>
    match trackerOf c with
    | none => (.panicRes nilDeref, c)
    | some t =>
      match (if t.IsValid then
               match t.MaxApproximation with
               | none => GoRes.panicRes nilDeref
               | some v => GoRes.ok (Int.sign v)
             else GoRes.ok 0) with
      | .panicRes m => (.panicRes m, c)
      | .ok s =>
          if s ≠ 0 then (.ok s, c)
          else
            match Approximate f c (goWrap (p - 1)) with
            | (.ok ic, c1) => (.ok (Int.sign ic), c1)
            | (.nilRes, c1) => (.ok 0, c1)
            | (e, c1) => (e, c1)
      | _ => (.panicRes nilDeref, c)

/-- The loop of `Sign(c)`: `for p := -20; ; p *= 2 { if r :=
PreciseSign(c, p-1); r != 0 { return r } }` (never terminates on zero;
fuel exhaustion models that). -/
def SignLoop (fuel : Nat) (c : CReal) (p : Int) : GoRes Int × CReal :=
  match fuel with
  | 0 => (.noFuel, c)
  | f + 1 =>
    match PreciseSign f c (goWrap (p - 1)) with
    | (.ok r, c1) =>
        if r ≠ 0 then (.ok r, c1)
        else SignLoop f c1 (goWrap (p * 2))
    | (e, c1) => (e, c1)

end

end Constructive

namespace Constructive

/-- `Add(a, b)`: a fresh addition node. -/
def Add (a b : CReal) : CReal := .add pt0 a b

/-- `Negate(c)`: a fresh negation node. -/
def Negate (c : CReal) : CReal := .neg pt0 c

/-- `Subtract(a, b) = Add(a, Negate(b))`. -/
def Subtract (a b : CReal) : CReal := Add a (Negate b)

/-- `Multiply(a, b)`: a fresh multiplication node. -/
def Multiply (a b : CReal) : CReal := .mul pt0 a b

/-- `Inverse(c)`: a fresh multiplicative-inverse node. -/
def Inverse (c : CReal) : CReal := .inv pt0 c

/-- `ShiftLeft(c, n)`: a fresh shift node. -/
def ShiftLeft (c : CReal) (n : Int) : CReal := .shift pt0 c n

/-- `ShiftRight(c, n) = newShift(c, -n)`. -/
def ShiftRight (c : CReal) (n : Int) : CReal := .shift pt0 c (-n)

/-- `newInteger(i)`: an integer leaf with a fresh tracker. -/
def newInteger (i : Int) : CReal := .int pt0 i

/-- `FromInt64(i)`. -/
def FromInt64 (i : Int) : CReal := newInteger i

/-- `FromInt(i)`. -/
def FromInt (i : Int) : CReal := FromInt64 i

/-- The memoized constant `Zero() = newNamed("0", FromInt(0))`. -/
def Zero : CReal := .named "0" (FromInt 0)

/-- The memoized constant `One() = newNamed("1", FromInt(1))`. -/
def One : CReal := .named "1" (FromInt 1)

/-- `Sqrt(c)`: thin passthrough to `newPrescaledSqrt(c)` — no wrap-time
check of the sign of `c`. -/
def Sqrt (c : CReal) : CReal := .sqrtK pt0 c

/-- `SimpleLn(c) = newPrescaledNaturalLog(Subtract(c, One()))`. -/
def SimpleLn (c : CReal) : CReal := .lnK pt0 (Subtract c One)

/-- Recover the shared child out of the temporary `Inverse` wrapper built
by `Ln` (models the aliasing of the Go heap in the tree-shaped state). -/
def extractInvChild : CReal → CReal → CReal
  | .inv _ r, _ => r
  | _, dflt => dflt

/-- Recover the shared child out of the temporary `Sqrt(Sqrt(·))` wrapper
built by `Ln`. -/
def extractSqrt2Child : CReal → CReal → CReal
  | .sqrtK _ (.sqrtK _ r), _ => r
  | _, dflt => dflt

/-- `Ln(c)`: probe at precision `-4`; `nil` for a strictly negative probe,
`Negate(Ln(Inverse(c)))` below 8, `ShiftLeft(Ln(Sqrt(Sqrt(c))), 2)` above
24, else `SimpleLn(c)`. -/
def Ln (fuel : Nat) (c : CReal) : GoRes CReal × CReal :=
  match fuel with
  | 0 => (.noFuel, c)
  | f + 1 =>
    match Approximate f c (-4) with
    | (.ok rough, c1) =>
        if rough < 0 then (.ok .nilr, c1)
        else if rough < 8 then
          match Ln f (Inverse c1) with
          | (.ok r, w) => (.ok (Negate r), extractInvChild w c1)
          | (e, w) => (e, extractInvChild w c1)
        else if rough > 24 then
          match Ln f (Sqrt (Sqrt c1)) with
          | (.ok r, w) => (.ok (ShiftLeft r 2), extractSqrt2Child w c1)
          | (e, w) => (e, extractSqrt2Child w c1)
        else (.ok (SimpleLn c1), c1)
    | (.nilRes, c1) => (.panicRes nilDeref, c1)
    | (.panicRes m, c1) => (.panicRes m, c1)
    | (.noFuel, c1) => (.noFuel, c1)

/-- `PreciseCmp(a, b, p)`: 0 when either argument is the nil Real; both
approximations at `p - 1`; 0 when either approximation is nil; otherwise
±1 when they differ by more than 1. -/
def PreciseCmp (fuel : Nat) (a b : CReal) (p : Int) : GoRes Int × CReal × CReal :=
  if a = CReal.nilr ∨ b = CReal.nilr then (.ok 0, a, b)
  else
    match Approximate fuel a (p - 1) with
    | (.panicRes m, a1) => (.panicRes m, a1, b)
    | (.noFuel, a1) => (.noFuel, a1, b)
    | (ra, a1) =>
      match Approximate fuel b (p - 1) with
      | (.panicRes m, b1) => (.panicRes m, a1, b1)
      | (.noFuel, b1) => (.noFuel, a1, b1)
      | (rb, b1) =>
        match ra, rb with
        | .ok ia, .ok ib =>
            if ia > bigAdd ib 1 then (.ok 1, a1, b1)
            else if ia < bigSub ib 1 then (.ok (-1), a1, b1)
            else (.ok 0, a1, b1)
        | _, _ => (.ok 0, a1, b1)

/-- The loop of `Cmp(a, b)`: `for p := -20; ; p *= 2`, returning 0 as soon
as the precision is invalid, else the first nonzero `PreciseCmp`. -/
def CmpLoop : Nat → Nat → CReal → CReal → Int → GoRes Int × CReal × CReal
  | 0, _, a, b, _ => (.noFuel, a, b)
  | k + 1, fuel, a, b, p =>
    if ¬ IsPrecisionValid p then (.ok 0, a, b)
    else
      match PreciseCmp fuel a b p with
      | (.ok v, a1, b1) =>
          if v ≠ 0 then (.ok v, a1, b1)
          else CmpLoop k fuel a1 b1 (goWrap (p * 2))
      | (e, a1, b1) => (e, a1, b1)

/-- `Cmp(a, b)`: the loop started at `p = -20`. -/
def Cmp (fuel : Nat) (a b : CReal) : GoRes Int × CReal × CReal :=
  CmpLoop fuel fuel a b (-20)

/-- The 62-character digit alphabet of `math/big` (`Int.Text`). -/
def digitAlphabet : List Char :=
  "0123456789abcdefghijklmnopqrstuvwxyzABCDEFGHIJKLMNOPQRSTUVWXYZ".toList

/-- Digit character for a value below the radix. -/
def digitChar (d : Nat) : Char := digitAlphabet.getD d '?'

/-- Fueled most-significant-first digit expansion. -/
def natToBaseGo : Nat → Nat → Nat → List Char
  | 0, _, n => [digitChar n]
  | f + 1, radix, n =>
      if n < radix then [digitChar n]
      else natToBaseGo f radix (n / radix) ++ [digitChar (n % radix)]

/-- `big.Int.Text` digit string of a natural number (radix in `[2, 62]`). -/
def natToBase (radix n : Nat) : List Char := natToBaseGo (n + 1) radix n

/-- The scaled value `sc` built by `Text`: `ShiftLeft(c, 4*dec)` for radix
16, else `Multiply(c, radix^dec)`. -/
def textScaled (c : CReal) (dec radix : Int) : CReal :=
  if radix == 16 then ShiftLeft c (goWrap (4 * dec))
  else Multiply c (newInteger (bigExp radix dec))

/-- `Text(c, dec, radix)`: approximate the scaled value at precision 0,
render `|si|` in the radix (panicking on an invalid base, like
`big.Int.Text`), pad and insert the radix point when `dec > 0`, prepend
`-` when the approximation is negative; the deferred `recover` renders any
panic as `<undefined: msg>`. -/
def Text (fuel : Nat) (c : CReal) (dec radix : Int) : GoRes String × CReal :=
  match Approximate fuel (textScaled c dec radix) 0 with
  | (.ok si, sc1) =>
      if radix < 2 ∨ 62 < radix then
        (.ok ("<undefined: " ++ invalidBase ++ ">"), sc1)
      else
        let ss := natToBase radix.toNat (bigAbs si).toNat
        let out :=
          if dec > 0 then
            let ss2 := if (ss.length : Int) ≤ dec
                       then List.replicate (dec + 1 - (ss.length : Int)).toNat '0' ++ ss
                       else ss
            (ss2.take (ss2.length - dec.toNat)) ++ '.' :: (ss2.drop (ss2.length - dec.toNat))
          else ss
        let out2 := if si < 0 then '-' :: out else out
        (.ok (String.mk out2), sc1)
  | (.nilRes, sc1) => (.ok ("<undefined: " ++ nilDeref ++ ">"), sc1)
  | (.panicRes m, sc1) => (.ok ("<undefined: " ++ m ++ ">"), sc1)
  | (.noFuel, sc1) => (.noFuel, sc1)

/-- `ContinuedFraction64(fracs)`: `Zero()` on the empty slice, else the
backward fold `c = Add(FromInt64(fracs[i]), Inverse(c))` started from the
last element (the `foldr` over `dropLast` is exactly the Go loop running
`i = len-2, …, 0`). -/
def ContinuedFraction64 (fracs : List Int) : CReal :=
  match fracs.getLast? with
  | none => Zero
  | some last => fracs.dropLast.foldr (fun x c => Add (FromInt64 x) (Inverse c)) (FromInt64 last)

/-- `ContinuedFraction(fracs)`: same fold over `Real` values. -/
def ContinuedFraction (fracs : List CReal) : CReal :=
  match fracs.getLast? with
  | none => Zero
  | some last => fracs.dropLast.foldr (fun x c => Add x (Inverse c)) last

end Constructive

namespace Constructive

/-- Absolute value on ℚ, written with an `if` so that statements stay
elementary. -/
def qabs (q : ℚ) : ℚ := if q < 0 then -q else q

/-- Balanced reduction of a small natural number is zero iff it is zero. -/
theorem bmod_ofNat_eq_zero (z : Nat) (hz : z < 2 ^ 64) :
    Int.bmod (z : Int) (2 ^ 64) = 0 ↔ z = 0 := by
  rw [Int.bmod_def]
  push_cast
  split <;> omega

/-- Go's 64-bit xor is zero exactly on equal operands (within `int` range). -/
theorem goXor_eq_zero {a b : Int} (ha0 : -(2 ^ 63) ≤ a) (ha1 : a < 2 ^ 63)
    (hb0 : -(2 ^ 63) ≤ b) (hb1 : b < 2 ^ 63) : goXor a b = 0 ↔ a = b := by
  unfold goXor goWrap
  have hlta : (a % (2 ^ 64 : Int)).toNat < 2 ^ 64 := by omega
  have hltb : (b % (2 ^ 64 : Int)).toNat < 2 ^ 64 := by omega
  have hxor : (a % (2 ^ 64 : Int)).toNat ^^^ (b % (2 ^ 64 : Int)).toNat < 2 ^ 64 :=
    Nat.xor_lt_two_pow hlta hltb
  rw [bmod_ofNat_eq_zero _ hxor, Nat.xor_eq_zero]
  omega

/-- Characterization of `IsIntWithinBitTolerance` on machine-range values:
the top four bits of the two's-complement representation all agree, i.e.
the value lies in `[-2^60, 2^60)`. -/
theorem withinTolerance_iff (v : Int) (h1 : -(2 ^ 63) ≤ v) (h2 : v < 2 ^ 63) (t : Int) :
    IsIntWithinBitTolerance v t = true ↔
      ((0 ≤ v ∧ v < 2 ^ 60) ∨ (-(2 ^ 60) ≤ v ∧ v < 0)) := by
  have hre : IsIntWithinBitTolerance v t = (goXor (goShr v 60) (goShr v 61) == 0) := rfl
  rw [hre, beq_iff_eq]
  have q1 : goShr v 60 = v / 2 ^ 60 := rfl
  have q2 : goShr v 61 = v / 2 ^ 61 := rfl
  rw [q1, q2]
  rw [goXor_eq_zero (by omega) (by omega) (by omega) (by omega)]
  omega

end Constructive

namespace Constructive

/-- C9: `IsIntWithinBitTolerance(value, tolerance)` ignores its tolerance
argument; on machine-range values it tests exactly that the top 4 bits of
the 64-bit two's-complement representation of `value` all agree, i.e. that
`value ∈ [-2^60, 2^60)` (all four bits 0, or all four bits 1). -/
theorem bit_tolerance_spec :
    (∀ value t1 t2 : Int, IsIntWithinBitTolerance value t1 = IsIntWithinBitTolerance value t2) ∧
    (∀ value tolerance : Int, -(2 ^ 63) ≤ value → value < 2 ^ 63 →
      (IsIntWithinBitTolerance value tolerance = true ↔
        ((0 ≤ value ∧ value < 2 ^ 60) ∨ (-(2 ^ 60) ≤ value ∧ value < 0)))) := by
  constructor
  · intro v t1 t2; rfl
  · intro v t h1 h2; exact withinTolerance_iff v h1 h2 t

/-- Witness for `bit_tolerance_spec` at concrete inputs. -/
theorem bit_tolerance_spec_witness :
    IsIntWithinBitTolerance 7 99 = IsIntWithinBitTolerance 7 0 ∧
    (IsIntWithinBitTolerance (2 ^ 61) 4 = true ↔
      ((0 ≤ (2 ^ 61 : Int) ∧ (2 ^ 61 : Int) < 2 ^ 60) ∨
        (-(2 ^ 60) ≤ (2 ^ 61 : Int) ∧ (2 ^ 61 : Int) < 0))) :=
  ⟨bit_tolerance_spec.1 7 99 0,
   bit_tolerance_spec.2 (2 ^ 61) 4 (by norm_num) (by norm_num)⟩

/-- C5: a precision is valid iff the top 4 bits of its 64-bit
representation are all 0 (`0 ≤ p < 2^60`) or all 1 (`-2^60 ≤ p < 0`);
`Approximate` at an invalid precision returns the nil sentinel
immediately, leaving the node (and hence its tracker) untouched — this
holds even with zero fuel, i.e. without any recursion. -/
theorem precision_validity_spec :
    (∀ p : Int, -(2 ^ 63) ≤ p → p < 2 ^ 63 →
      (IsPrecisionValid p = true ↔ ((0 ≤ p ∧ p < 2 ^ 60) ∨ (-(2 ^ 60) ≤ p ∧ p < 0)))) ∧
    (∀ (fuel : Nat) (c : CReal) (p : Int), IsPrecisionValid p = false →
      Approximate fuel c p = (.nilRes, c)) := by
  constructor
  · intro p h1 h2; exact withinTolerance_iff p h1 h2 4
  · intro fuel c p h
    cases fuel <;> simp [Approximate, h]

/-- Witness for `precision_validity_spec` at concrete inputs. -/
theorem precision_validity_spec_witness :
    (IsPrecisionValid (2 ^ 61) = true ↔
      ((0 ≤ (2 ^ 61 : Int) ∧ (2 ^ 61 : Int) < 2 ^ 60) ∨
        (-(2 ^ 60) ≤ (2 ^ 61 : Int) ∧ (2 ^ 61 : Int) < 0))) ∧
    Approximate 5 (.int pt0 3) (2 ^ 61) = (.nilRes, .int pt0 3) :=
  ⟨precision_validity_spec.1 (2 ^ 61) (by norm_num) (by norm_num),
   precision_validity_spec.2 5 (.int pt0 3) (2 ^ 61) (by decide)⟩

end Constructive

namespace Constructive

/-- C6: the tracker hits exactly when it is valid and the query is no
finer than the cached precision; a hit rescales the cached value with
`scale`; `Set` unconditionally overwrites the single entry and returns
the stored value; consequently after `Set(q, v)` every `p ≥ q` hits and
every `p < q` misses. -/
theorem precision_tracker_spec :
    (∀ (t : PT) (p : Int), ((t.Get p).2 = true ↔ (t.IsValid = true ∧ t.MinPrecision ≤ p))) ∧
    (∀ (t : PT) (p : Int) (v : Int), t.IsValid = true → t.MaxApproximation = some v →
      t.MinPrecision ≤ p → t.Get p = (.ok (scale v (t.MinPrecision - p)), true)) ∧
    (∀ (t : PT) (p : Int) (i : Option Int), t.Set p i = (⟨true, i, p⟩, i)) ∧
    (∀ (t : PT) (q p : Int) (i : Option Int), q ≤ p → ((t.Set q i).1.Get p).2 = true) ∧
    (∀ (t : PT) (q p : Int) (i : Option Int), p < q → (t.Set q i).1.Get p = (.nilRes, false)) := by
  refine ⟨?_, ?_, ?_, ?_, ?_⟩
  · intro t p
    unfold PT.Get
    by_cases h : t.IsValid ∧ p ≥ t.MinPrecision
    · cases hm : t.MaxApproximation <;> simp [h, hm]
    · simp [h]
  · intro t p v hv hm hp
    unfold PT.Get
    rw [if_pos ⟨hv, hp⟩, hm]
  · intro t p i; rfl
  · intro t q p i h
    unfold PT.Set PT.Get
    cases i <;> simp [h]
  · intro t q p i h
    unfold PT.Set PT.Get
    rw [if_neg]
    simp
    omega

/-- Witness for `precision_tracker_spec` at concrete inputs. -/
theorem precision_tracker_spec_witness :
    PT.Get ⟨true, some 40, -2⟩ 1 = (.ok (scale 40 (-2 - 1)), true) ∧
    ((PT.Set pt0 (-5) (some 4)).1.Get (-3)).2 = true ∧
    (PT.Set pt0 (-5) (some 4)).1.Get (-7) = (.nilRes, false) :=
  ⟨precision_tracker_spec.2.1 ⟨true, some 40, -2⟩ 1 40 rfl rfl (by decide),
   precision_tracker_spec.2.2.2.1 pt0 (-5) (-3) (some 4) (by decide),
   precision_tracker_spec.2.2.2.2 pt0 (-5) (-7) (some 4) (by decide)⟩

/-- C10: both continued-fraction constructors return the named constant
`Zero` (a real node, not the nil interface) on an empty slice, and on a
non-empty slice fold backwards from the last element by
`c ← fracs[i] + 1/c`. -/
theorem continued_fraction_spec :
    ContinuedFraction64 [] = Zero ∧
    ContinuedFraction ([] : List CReal) = Zero ∧
    Zero ≠ CReal.nilr ∧
    (∀ x : Int, ContinuedFraction64 [x] = FromInt64 x) ∧
    (∀ (x y : Int) (ys : List Int),
      ContinuedFraction64 (x :: y :: ys) =
        Add (FromInt64 x) (Inverse (ContinuedFraction64 (y :: ys)))) ∧
    (∀ x : CReal, ContinuedFraction [x] = x) ∧
    (∀ (x y : CReal) (ys : List CReal),
      ContinuedFraction (x :: y :: ys) = Add x (Inverse (ContinuedFraction (y :: ys)))) := by
  refine ⟨rfl, rfl, by decide, ?_, ?_, ?_, ?_⟩
  · intro x; rfl
  · intro x y ys
    cases h : (y :: ys).getLast? with
    | none => simp at h
    | some l =>
        simp only [ContinuedFraction64, List.getLast?_cons_cons, h, List.dropLast_cons₂,
          List.foldr_cons]
  · intro x; rfl
  · intro x y ys
    cases h : (y :: ys).getLast? with
    | none => simp at h
    | some l =>
        simp only [ContinuedFraction, List.getLast?_cons_cons, h, List.dropLast_cons₂,
          List.foldr_cons]

end Constructive

namespace Constructive

/-- Floor-division halving step: `((a / b) + 1) / 2 = (a + b) / (2b)`. -/
theorem halfStep (a b : Int) (hb : 0 < b) : (a / b + 1) / 2 = (a + b) / (b * 2) := by
  have hb2 : (b * 2) ≠ 0 := by omega
  have hbne : b ≠ 0 := by omega
  have e1 := Int.ediv_add_emod a (b * 2)
  have e2 := Int.emod_nonneg a hb2
  have e3 := Int.emod_lt_of_pos a (show 0 < b * 2 by omega)
  set q := a / (b * 2) with hq
  set r := a % (b * 2) with hr
  have ha : a = r + (2 * q) * b := by rw [← e1]; ring
  have hdiv1 : a / b = r / b + 2 * q := by
    rw [ha, Int.add_mul_ediv_right _ _ hbne]
  have ha2 : a + b = (r + b) + q * (b * 2) := by rw [ha]; ring
  have hdiv2 : (a + b) / (b * 2) = (r + b) / (b * 2) + q := by
    rw [ha2, Int.add_mul_ediv_right _ _ hb2]
  by_cases hc : r < b
  · have hr0 : r / b = 0 := Int.ediv_eq_zero_of_lt e2 hc
    have hrb : (r + b) / (b * 2) = 0 := Int.ediv_eq_zero_of_lt (by omega) (by omega)
    rw [hdiv1, hdiv2, hr0, hrb]
    have hrw : (0 + 2 * q + 1) = 1 + q * 2 := by ring
    rw [hrw, Int.add_mul_ediv_right _ _ (by norm_num : (2:ℤ) ≠ 0)]
    norm_num
  · have hc2 : b ≤ r := by omega
    have hr1 : r / b = 1 := by
      have hrw : r = (r - b) + 1 * b := by ring
      rw [hrw, Int.add_mul_ediv_right _ _ hbne,
        Int.ediv_eq_zero_of_lt (by omega) (by omega)]
      norm_num
    have hrb : (r + b) / (b * 2) = 1 := by
      have hrw : r + b = (r - b) + 1 * (b * 2) := by ring
      rw [hrw, Int.add_mul_ediv_right _ _ hb2,
        Int.ediv_eq_zero_of_lt (by omega) (by omega)]
      norm_num
    rw [hdiv1, hdiv2, hr1, hrb]
    have hrw : (1 + 2 * q + 1) = (1 + q) * 2 := by ring
    rw [hrw, Int.mul_ediv_cancel _ (by norm_num : (2:ℤ) ≠ 0)]

/-- Rounding `num/den` (`den > 0`) to the nearest integer with ties half
away from zero — the rounding mode the claim ascribes to `scale` for
every sign of the input. -/
def roundHalfAwayFromZero (num den : Int) : Int :=
  if 0 ≤ num then (2 * num + den) / (2 * den)
  else -((2 * (-num) + den) / (2 * den))

/-- C3 counterexample: at `i = -3`, `n = -1` (so `i·2^n = -3/2`), `scale`
returns `-1`, but rounding half away from zero gives `-2`. -/
theorem scale_not_half_away_from_zero :
    scale (-3) (-1) = -1 ∧ roundHalfAwayFromZero (-3) 2 = -2 ∧
    scale (-3) (-1) ≠ roundHalfAwayFromZero (-3) 2 :=
  ⟨by decide, by decide, by decide⟩

/-- C3 amended: for `n < 0`, `scale(i, n)` is `i·2^n` rounded to the
nearest integer with ties rounded toward `+∞` (`⌊i·2^n + 1/2⌋`): half away
from zero for positive `i`, but half toward zero for negative `i`. -/
theorem scale_rounds_half_up (i n : Int) (hn : n < 0) :
    scale i n = ⌊(i : ℚ) / ((2 ^ (-n).toNat : ℤ) : ℚ) + 1 / 2⌋ := by
  set k := (-n - 1).toNat with hk
  have hkk : (-n).toNat = k + 1 := by omega
  have hss : signedShift i (n + 1) = i / 2 ^ k := by
    unfold signedShift bigRsh bigLsh
    by_cases h1 : n + 1 < 0
    · rw [if_pos h1]
      congr 2
      omega
    · have hn1 : n + 1 = 0 := by omega
      have hk0 : k = 0 := by omega
      rw [if_neg h1, if_neg (by omega), hk0]
      norm_num
  have hsc : scale i n = (i / 2 ^ k + 1) / 2 := by
    unfold scale bigRsh bigAdd
    rw [if_neg (by omega), hss]
    norm_num
  rw [hsc, halfStep i (2 ^ k) (by positivity), hkk]
  have h2 : ((2 : ℤ) ^ k * 2) = ((2 ^ (k + 1) : ℕ) : ℤ) := by push_cast; ring
  rw [h2]
  rw [← Rat.floor_intCast_div_natCast (i + 2 ^ k) (2 ^ (k + 1))]
  congr 1
  have hne : ((2 ^ (k + 1) : ℕ) : ℚ) ≠ 0 := by positivity
  push_cast at hne ⊢
  field_simp
  ring

/-- Witness for `scale_rounds_half_up` at `i = -3`, `n = -1`. -/
theorem scale_rounds_half_up_witness :
    (-1 : Int) < 0 ∧
    scale (-3) (-1) = ⌊((-3 : Int) : ℚ) / ((2 ^ (-(-1 : Int)).toNat : ℤ) : ℚ) + 1 / 2⌋ :=
  ⟨by decide, scale_rounds_half_up (-3) (-1) (by decide)⟩

end Constructive

namespace Constructive

/-- C1 (code bug): the approximation contract fails on the algebraic
fragment.  For `x = Inverse(Inverse(FromInt(10)))` — exact value 10 — and
the valid precision `p = 0`, `Approximate` returns 8, although the
contract `|a·2^p − x| < 1` requires (at `p = 0`, where `2^p = 1`) an
integer within 1 of 10.  The slip is in
`constructiveMultiplicativeInverse.approximate`: `msd` probes only at one
precision and returns `math.MinInt` for the small inner value `1/10`, and
`ir := 1 - mr` then overflows, silently steering the computation to the
wrong working precision. -/
theorem approximation_contract_code_bug :
    val (Inverse (Inverse (FromInt 10))) = some 10 ∧
    (Approximate 60 (Inverse (Inverse (FromInt 10))) 0).1 = .ok 8 ∧
    ¬ qabs ((8 : ℚ) - 10) < 1 := by
  refine ⟨?_, by decide, ?_⟩
  · simp [val, Inverse, FromInt, FromInt64, newInteger]
  · norm_num [qabs]

/-- C2 (code bug): `constructiveMultiplicativeInverse.approximate` negates
its Euclidean quotient whenever the quotient (not the divisor) is
negative, so the method never returns a negative integer at all.  For
`r = FromInt(-2)` at `p = 0` the code computes `pn = -2` and
`divisor = Approximate(r, -2) = -8 < 0`, yet returns `+1` for
`1/r = -1/2`; the claim (and the spec's rounding-division intent)
requires a negative approximation for a negative divisor. -/
theorem inverse_sign_code_bug :
    val (Inverse (FromInt (-2))) = some (-(1 / 2)) ∧
    (Approximate 60 (FromInt (-2)) (-2)).1 = .ok (-8) ∧
    (Approximate 60 (Inverse (FromInt (-2))) 0).1 = .ok 1 ∧
    ¬ ((1 : Int) < 0) ∧
    (∀ (f : Nat) (t : PT) (r : CReal) (p v : Int) (c' : CReal),
      approximate f (.inv t r) p = (.ok v, c') → 0 ≤ v) := by
  refine ⟨?_, by decide, by decide, by norm_num, ?_⟩
  · norm_num [val, Inverse, FromInt, FromInt64, newInteger]
  · intro f t r p v c' h
    cases f with
    | zero => simp [approximate] at h
    | succ f =>
      simp only [approximate] at h
      rcases hm : msd f r p with ⟨mr, r1⟩
      rw [hm] at h
      cases mr with
      | ok m =>
          dsimp only at h
          split at h
          · simp only [Prod.mk.injEq, GoRes.ok.injEq] at h
            omega
          · split at h
            · split at h
              · simp at h
              · split at h
                · simp only [Prod.mk.injEq, GoRes.ok.injEq, bigNeg] at h
                  omega
                · simp only [Prod.mk.injEq, GoRes.ok.injEq] at h
                  omega
            · simp at h
            · rename_i hnotok hnotnil heq2
              simp at h
              exact (hnotok v h.1).elim
      | nilRes => simp at h
      | panicRes m2 => simp at h
      | noFuel => simp at h

/-- Witness for the universally quantified part of
`inverse_sign_code_bug` at the failing input itself. -/
theorem inverse_sign_code_bug_witness :
    approximate 59 (.inv pt0 (.int pt0 (-2))) 0 =
      (.ok 1, .inv pt0 (.int ⟨true, some (-8), -2⟩ (-2))) ∧ (0 : Int) ≤ 1 :=
  ⟨by decide,
   inverse_sign_code_bug.2.2.2.2 59 pt0 (.int pt0 (-2)) 0 1
     (.inv pt0 (.int ⟨true, some (-8), -2⟩ (-2))) (by decide)⟩

/-- C4 counterexample: for `c = FromInt(0)` the probe of `Ln` at precision
`-4` is 0 — non-positive — but `Ln` does not return the nil sentinel: it
recurses into `Ln(Inverse(c))`, whose own probe divides by zero, and the
panic propagates out of the wrap call.  Likewise `Sqrt` applied to the
negative `FromInt(-1)` returns a real `prescaledSqrt` node at wrap time,
not an error sentinel. -/
theorem ln_zero_probe_not_sentinel :
    (Approximate 60 (FromInt 0) (-4)).1 = .ok 0 ∧
    (Ln 61 (FromInt 0)).1 = .panicRes divByZero ∧
    (Ln 61 (FromInt 0)).1 ≠ .ok .nilr ∧
    val (FromInt (-1)) = some (-1) ∧
    Sqrt (FromInt (-1)) ≠ .nilr := by
  refine ⟨by decide, by decide, by decide, ?_, by decide⟩
  norm_num [val, FromInt, FromInt64, newInteger]

/-- C4 amended: `Ln(c)` returns the nil Real at wrap time exactly when
its probe at precision `-4` is strictly negative (a zero or positive
probe takes one of the recursive branches, none of which produces the
sentinel itself); `Sqrt(c)` performs no wrap-time check at all — it
always returns a `prescaledSqrt` node, never the sentinel, and a negative
argument is only detected later inside approximation. -/
theorem ln_sqrt_sentinel_behavior :
    (∀ (f : Nat) (c c1 : CReal) (v : Int),
      Approximate f c (-4) = (.ok v, c1) → v < 0 → Ln (f + 1) c = (.ok .nilr, c1)) ∧
    (∀ c : CReal, Sqrt c = .sqrtK pt0 c ∧ Sqrt c ≠ .nilr) ∧
    (∀ (f : Nat) (c c1 : CReal) (v : Int),
      Approximate f c (-4) = (.ok v, c1) → 0 ≤ v → (Ln (f + 1) c).1 ≠ .ok .nilr) := by
  refine ⟨?_, ?_, ?_⟩
  · intro f c c1 v h hv
    simp only [Ln, h]
    rw [if_pos hv]
  · intro c
    exact ⟨rfl, by simp [Sqrt]⟩
  · intro f c c1 v h hv
    simp only [Ln, h]
    rw [if_neg (by omega)]
    by_cases h8 : v < 8
    · rw [if_pos h8]
      rcases hl : Ln f (Inverse c1) with ⟨res, w⟩
      cases res <;> simp [hl, Negate]
    · rw [if_neg h8]
      by_cases h24 : v > 24
      · rw [if_pos h24]
        rcases hl : Ln f (Sqrt (Sqrt c1)) with ⟨res, w⟩
        cases res <;> simp [hl, ShiftLeft]
      · rw [if_neg h24]
        simp [SimpleLn]

/-- Witness for `ln_sqrt_sentinel_behavior` at concrete inputs. -/
theorem ln_sqrt_sentinel_behavior_witness :
    Ln 61 (FromInt (-32)) = (.ok .nilr, .int ⟨true, some (-512), -4⟩ (-32)) ∧
    Sqrt (FromInt (-1)) = .sqrtK pt0 (FromInt (-1)) ∧
    (Ln 61 (FromInt 1)).1 ≠ .ok .nilr :=
  ⟨ln_sqrt_sentinel_behavior.1 60 (FromInt (-32)) (.int ⟨true, some (-512), -4⟩ (-32)) (-512)
      (by decide) (by decide),
   (ln_sqrt_sentinel_behavior.2.1 (FromInt (-1))).1,
   ln_sqrt_sentinel_behavior.2.2 60 (FromInt 1) (.int ⟨true, some 16, -4⟩ 1) 16
      (by decide) (by decide)⟩

end Constructive

namespace Constructive

/-- C7: `PreciseCmp(a, b, p)` requests both approximations at `p - 1`; it
returns `+1` when `a`'s approximation exceeds `b`'s by more than 1, `-1`
symmetrically, and 0 otherwise — including when either argument or either
approximation is nil; the returned code is nonzero exactly when the two
approximations differ by more than 1.  `Cmp(a, b)` runs `p = -20, -40,
-80, …` (doubling), returns the first nonzero `PreciseCmp` result, and
returns 0 as soon as the precision becomes invalid. -/
theorem cmp_precisecmp_spec :
    (∀ (f : Nat) (a b : CReal) (p : Int), a = CReal.nilr ∨ b = CReal.nilr →
      PreciseCmp f a b p = (.ok 0, a, b)) ∧
    (∀ (f : Nat) (a b : CReal) (p : Int) (ia ib : Int) (a1 b1 : CReal),
      a ≠ CReal.nilr → b ≠ CReal.nilr →
      Approximate f a (p - 1) = (.ok ia, a1) → Approximate f b (p - 1) = (.ok ib, b1) →
      PreciseCmp f a b p =
        (.ok (if ib + 1 < ia then 1 else if ia < ib - 1 then -1 else 0), a1, b1)) ∧
    (∀ ia ib : Int,
      ((if ib + 1 < ia then (1 : Int) else if ia < ib - 1 then -1 else 0) ≠ 0 ↔
        1 < bigAbs (ia - ib)) ∧
      ((if ib + 1 < ia then (1 : Int) else if ia < ib - 1 then -1 else 0) = 1 ↔ ib + 1 < ia) ∧
      ((if ib + 1 < ia then (1 : Int) else if ia < ib - 1 then -1 else 0) = -1 ↔ ia + 1 < ib)) ∧
    (∀ (f : Nat) (a b : CReal) (p : Int) (ia : Int) (a1 b1 : CReal),
      a ≠ CReal.nilr → b ≠ CReal.nilr →
      Approximate f a (p - 1) = (.ok ia, a1) → Approximate f b (p - 1) = (.nilRes, b1) →
      PreciseCmp f a b p = (.ok 0, a1, b1)) ∧
    (∀ (f : Nat) (a b : CReal) (p : Int) (ib : Int) (a1 b1 : CReal),
      a ≠ CReal.nilr → b ≠ CReal.nilr →
      Approximate f a (p - 1) = (.nilRes, a1) → Approximate f b (p - 1) = (.ok ib, b1) →
      PreciseCmp f a b p = (.ok 0, a1, b1)) ∧
    (∀ (f : Nat) (a b : CReal), Cmp f a b = CmpLoop f f a b (-20)) ∧
    (∀ (k f : Nat) (a b : CReal) (p : Int), IsPrecisionValid p = false →
      CmpLoop (k + 1) f a b p = (.ok 0, a, b)) ∧
    (∀ (k f : Nat) (a b a1 b1 : CReal) (p v : Int), IsPrecisionValid p = true →
      PreciseCmp f a b p = (.ok v, a1, b1) → v ≠ 0 →
      CmpLoop (k + 1) f a b p = (.ok v, a1, b1)) ∧
    (∀ (k f : Nat) (a b a1 b1 : CReal) (p : Int), IsPrecisionValid p = true →
      PreciseCmp f a b p = (.ok 0, a1, b1) →
      CmpLoop (k + 1) f a b p = CmpLoop k f a1 b1 (goWrap (p * 2))) := by
  refine ⟨?_, ?_, ?_, ?_, ?_, ?_, ?_, ?_, ?_⟩
  · intro f a b p h
    unfold PreciseCmp
    rw [if_pos h]
  · intro f a b p ia ib a1 b1 ha hb h1 h2
    unfold PreciseCmp
    rw [if_neg (not_or.mpr ⟨ha, hb⟩), h1, h2]
    simp only [bigAdd, bigSub, gt_iff_lt]
    split_ifs <;> rfl
  · intro ia ib
    refine ⟨?_, ?_, ?_⟩
    · simp only [bigAbs]; split_ifs <;> omega
    · split_ifs with h1 h2
      · exact iff_of_true rfl h1
      · exact iff_of_false (by decide) h1
      · exact iff_of_false (by decide) h1
    · split_ifs with h1 h2
      · exact iff_of_false (by decide) (by omega)
      · exact iff_of_true rfl (by omega)
      · exact iff_of_false (by decide) (by omega)
  · intro f a b p ia a1 b1 ha hb h1 h2
    unfold PreciseCmp
    rw [if_neg (not_or.mpr ⟨ha, hb⟩), h1, h2]
  · intro f a b p ib a1 b1 ha hb h1 h2
    unfold PreciseCmp
    rw [if_neg (not_or.mpr ⟨ha, hb⟩), h1, h2]
  · intro f a b; rfl
  · intro k f a b p h
    simp only [CmpLoop, h]
    simp
  · intro k f a b a1 b1 p v hp h1 hv
    simp only [CmpLoop, hp, h1]
    simp [hv]
  · intro k f a b a1 b1 p hp h1
    simp only [CmpLoop, hp, h1]
    simp

/-- Witness for `cmp_precisecmp_spec` at concrete inputs. -/
theorem cmp_precisecmp_spec_witness :
    PreciseCmp 5 CReal.nilr (FromInt 1) 0 = (.ok 0, CReal.nilr, FromInt 1) ∧
    PreciseCmp 60 (FromInt 1) (FromInt 2) (-5) =
      (.ok (if 128 + 1 < (64 : Int) then 1 else if (64 : Int) < 128 - 1 then -1 else 0),
        .int ⟨true, some 64, -6⟩ 1, .int ⟨true, some 128, -6⟩ 2) ∧
    CmpLoop (5 + 1) 60 (FromInt 1) (FromInt 2) (-20) =
      (.ok (-1), .int ⟨true, some 2097152, -21⟩ 1, .int ⟨true, some 4194304, -21⟩ 2) := by
  refine ⟨?_, ?_, ?_⟩
  · exact cmp_precisecmp_spec.1 5 CReal.nilr (FromInt 1) 0 (Or.inl rfl)
  · exact cmp_precisecmp_spec.2.1 60 (FromInt 1) (FromInt 2) (-5) 64 128
      (.int ⟨true, some 64, -6⟩ 1) (.int ⟨true, some 128, -6⟩ 2)
      (by decide) (by decide) (by decide) (by decide)
  · exact cmp_precisecmp_spec.2.2.2.2.2.2.2.1 5 60 (FromInt 1) (FromInt 2)
      (.int ⟨true, some 2097152, -21⟩ 1) (.int ⟨true, some 4194304, -21⟩ 2) (-20) (-1)
      (by decide) (by decide) (by decide)

end Constructive

namespace Constructive

/-- The digit list rendered by `Text`: the base-`radix` digits of `|si|`,
left-padded with `'0'` to at least `dec + 1` characters. -/
def padDigits (dec radix : Nat) (si : Int) : List Char :=
  let ds := natToBase radix (bigAbs si).toNat
  List.replicate (dec + 1 - ds.length) '0' ++ ds

/-- Modelled from the spec: the fixed-point rendering claimed for `Text` —
sign, integer digits, radix point, exactly `dec` fractional digits. -/
def textFixed (si : Int) (dec radix : Nat) : String :=
  let ds := padDigits dec radix si
  String.mk ((if si < 0 then ['-'] else []) ++
    (ds.take (ds.length - dec) ++ '.' :: ds.drop (ds.length - dec)))

/-- C8 counterexample: with `dec = 0` (allowed by the claim, which ranges
over `dec ≥ 0`) the rendering contains no radix point at all:
`Text(FromInt(5), 0, 10) = "5"`. -/
theorem text_zero_decimals_no_point :
    (0 : Int) ≥ 0 ∧
    (Text 80 (FromInt 5) 0 10).1 = .ok "5" ∧
    '.' ∉ "5".data :=
  ⟨by decide, by decide, by decide⟩

end Constructive

namespace Constructive

/-- C8 amended: for `dec ≥ 1` and a radix accepted by the big-integer
renderer (`2 ≤ radix ≤ 62`), when the approximation of the scaled value
at precision 0 yields an integer `si`, `Text` renders exactly the claimed
fixed-point form (absolute digits padded to `dec + 1`, radix point before
the last `dec` digits, `-` prefix iff `si < 0`); the rendered string has
exactly `dec` fractional digits, a nonempty integer part, and contains the
radix point; and a panic propagating out of the approximation is caught
and rendered as `<undefined: msg>`. -/
theorem text_fixed_point_spec :
    (∀ (f : Nat) (c : CReal) (dec radix si : Int) (sc1 : CReal),
      1 ≤ dec → 2 ≤ radix → radix ≤ 62 →
      Approximate f (textScaled c dec radix) 0 = (.ok si, sc1) →
      Text f c dec radix = (.ok (textFixed si dec.toNat radix.toNat), sc1)) ∧
    (∀ (f : Nat) (c : CReal) (dec radix : Int) (m : String) (sc1 : CReal),
      Approximate f (textScaled c dec radix) 0 = (.panicRes m, sc1) →
      Text f c dec radix = (.ok ("<undefined: " ++ m ++ ">"), sc1)) ∧
    (∀ (si : Int) (dec radix : Nat), 1 ≤ dec →
      dec + 1 ≤ (padDigits dec radix si).length ∧
      (textFixed si dec radix).data =
        (if si < 0 then ['-'] else []) ++
          ((padDigits dec radix si).take ((padDigits dec radix si).length - dec) ++
            '.' :: (padDigits dec radix si).drop ((padDigits dec radix si).length - dec)) ∧
      ((padDigits dec radix si).drop ((padDigits dec radix si).length - dec)).length = dec ∧
      1 ≤ ((padDigits dec radix si).take ((padDigits dec radix si).length - dec)).length ∧
      '.' ∈ (textFixed si dec radix).data) := by
  refine ⟨?_, ?_, ?_⟩
  · intro f c dec radix si sc1 hdec hr1 hr2 h
    unfold Text
    rw [h]
    dsimp only
    rw [if_neg (show ¬(radix < 2 ∨ 62 < radix) by omega), if_pos (show dec > 0 by omega)]
    unfold textFixed padDigits
    set ds := natToBase radix.toNat (bigAbs si).toNat with hds
    by_cases hl : (ds.length : Int) ≤ dec
    · have hcount : (dec + 1 - (ds.length : Int)).toNat = dec.toNat + 1 - ds.length := by omega
      rw [if_pos hl, hcount]
      by_cases hsi : si < 0 <;> simp [hsi]
    · have hcount : dec.toNat + 1 - ds.length = 0 := by omega
      rw [if_neg hl]
      simp only [hcount, List.replicate_zero, List.nil_append]
      by_cases hsi : si < 0 <;> simp [hsi]
  · intro f c dec radix m sc1 h
    unfold Text
    rw [h]
  · intro si dec radix hdec
    have hlen : dec + 1 ≤ (padDigits dec radix si).length := by
      unfold padDigits
      simp only [List.length_append, List.length_replicate]
      omega
    refine ⟨hlen, rfl, ?_, ?_, ?_⟩
    · rw [List.length_drop]
      omega
    · rw [List.length_take]
      omega
    · unfold textFixed
      simp

/-- Witness for `text_fixed_point_spec` at `Text(FromInt(10), 5, 10)`. -/
theorem text_fixed_point_spec_witness :
    Text 80 (FromInt 10) 5 10 =
      (.ok (textFixed 1000000 5 10), (Approximate 80 (textScaled (FromInt 10) 5 10) 0).2) ∧
    textFixed 1000000 5 10 = "10.00000" := by
  constructor
  · exact text_fixed_point_spec.1 80 (FromInt 10) 5 10 1000000
      ((Approximate 80 (textScaled (FromInt 10) 5 10) 0).2)
      (by norm_num) (by norm_num) (by norm_num) (by decide)
  · decide

end Constructive
